import Mathlib

/-!
Shallow embedding of the VeriPy probabilistic-forecast verification core
(`veripy/Probabilistic.py` and `veripy/tools/GenericCDF.py`), together with
theorems settling the frozen claims about it.

Python floats are modelled as rationals, machine ints as `ℕ`/`ℤ`, and
fallible code as `Option`/errors threaded explicitly.  Randomness
(`random.random()`) is modelled by passing the stream of generated uniform
values as an explicit argument.
-/

namespace VeriPy

/-! ## GenericCDF (`veripy/tools/GenericCDF.py`)

`GenericCDF.__init__` computes `norm` (the sum of the weights unless the
caller asserts they are normalized) and then, element by element, appends
`sum/norm` to the CDF list.  When `norm = 0` and the weight list is
nonempty, the first division raises `ZeroDivisionError`; when the list is
empty the loop body never runs and construction succeeds with an empty CDF.
-/

/-- The loop `for value in array: sum += value; cdf.append(sum/norm)`. -/
def cdfAccum (norm : ℚ) : ℚ → List ℚ → List ℚ
  | _, [] => []
  | acc, v :: rest => (acc + v) / norm :: cdfAccum norm (acc + v) rest

/-- `GenericCDF.__init__(array, Normalized)`: `none` models the
`ZeroDivisionError` raised by the first `sum/norm` when `norm = 0`. -/
def cdfInit (array : List ℚ) (normalized : Bool) : Option (List ℚ) :=
  let norm : ℚ := if normalized then 1 else array.sum
  if norm = 0 ∧ array ≠ [] then none
  else some (cdfAccum norm 0 array)

/-- The `while ((self._cdf[indx] < rng) and (indx < len(self._cdf) - 1)): indx += 1`
loop of `GenericCDF.draw` (list indexing is total here via `getD`; the
source only runs it on nonempty CDFs). -/
def drawLoop (cdf : List ℚ) (rng : ℚ) (indx : ℕ) : ℕ :=
  if h : cdf.getD indx 0 < rng ∧ indx < cdf.length - 1 then
    drawLoop cdf rng (indx + 1)
  else indx
termination_by cdf.length - indx
decreasing_by omega

/-- `GenericCDF.draw()` for a single draw, with the generated uniform value
`rng` passed explicitly. -/
def draw (cdf : List ℚ) (rng : ℚ) : ℕ := drawLoop cdf rng 0

theorem drawLoop_le (cdf : List ℚ) (rng : ℚ) (indx : ℕ)
    (h : indx ≤ cdf.length - 1) : drawLoop cdf rng indx ≤ cdf.length - 1 := by
  rw [drawLoop]
  split
  · exact drawLoop_le cdf rng (indx + 1) (by omega)
  · exact h
termination_by cdf.length - indx
decreasing_by omega

theorem draw_lt (cdf : List ℚ) (rng : ℚ) (hne : cdf ≠ []) :
    draw cdf rng < cdf.length := by
  have hlen : 0 < cdf.length := List.length_pos.mpr hne
  have := drawLoop_le cdf rng 0 (by omega)
  rw [draw]
  omega

theorem cdfAccum_length (norm acc : ℚ) (l : List ℚ) :
    (cdfAccum norm acc l).length = l.length := by
  induction l generalizing acc with
  | nil => rfl
  | cons v rest ih => simp [cdfAccum, ih]

/-! ## Bootstrap (`Probabilistic.bootstrap`)

`bootstrap(N)` (with the default `observed=True`) builds a `GenericCDF`
over the observed outcome values, computes `NN = O.sum()`, allocates an
`N × len(F)` zero matrix, and performs `NN` draws per row, incrementing
the drawn cell each time.
-/

/-- One `self._boot[i][indx] += 1` update. -/
def bumpAt (row : List ℕ) (i : ℕ) : List ℕ := row.set i (row.getD i 0 + 1)

/-- The inner `for n in xrange(NN)` loop, with the drawn indices listed. -/
def fillRow (row : List ℕ) : List ℕ → List ℕ
  | [] => row
  | i :: rest => fillRow (bumpAt row i) rest

/-- One bootstrap replicate row: `NN` draws into an all-zero row of width `M`. -/
def bootRow (cdf : List ℚ) (M NN : ℕ) (rng : ℕ → ℚ) : List ℕ :=
  fillRow (List.replicate M 0) ((List.range NN).map fun n => draw cdf (rng n))

/-- The full replicate matrix: `N` rows, each filled by `NN` draws.
`rngs i n` is the uniform value consumed by draw `n` of replicate `i`. -/
def bootMatrix (cdf : List ℚ) (M NN N : ℕ) (rngs : ℕ → ℕ → ℚ) : List (List ℕ) :=
  (List.range N).map fun i => bootRow cdf M NN (rngs i)

/-- State held by a `Probabilistic` forecast object: the `(forecast, observed)`
pairs, the cached bootstrap matrix, and the cached statistics map. -/
structure PState where
  data : List (ℚ × ℕ)
  boot : Option (List (List ℕ))
  stats : List (String × ℚ)

/-- The observed-outcome column `O` of the data. -/
def outcomes (data : List (ℚ × ℕ)) : List ℕ := data.map Prod.snd

/-- `GenericCDF.__init__(array, Normalized=False)` when the weights are a
NUMPY array, as on the `bootstrap` path (`O = numpy.array(col)`): there
`norm` and `sum` become numpy floats, so when `norm = 0` each `sum/norm`
yields `nan` with a `RuntimeWarning` under the default numpy error state —
it does NOT raise, and construction always succeeds.  Lean's total `/`
(with `x / 0 = 0`) stands in for those `nan` entries; on the bootstrap
path `norm = 0` happens exactly when the total observed-event count is
zero, in which case zero draws are performed and the CDF entries are never
consulted, so their stand-in value is immaterial to every theorem below. -/
def cdfInitArray (array : List ℚ) : List ℚ :=
  cdfAccum array.sum 0 array

/-- `Probabilistic.bootstrap(N, observed=True, seed)`: the second component
is `some errorName` when the call raises.  In Python 2,
`map(None, *self._data)` raises `TypeError` on an empty dataset (`map`
needs at least two arguments), and on a single-observation dataset it
returns the pair's two scalars, so `F` and `O` become 0-d numpy arrays and
`GenericCDF(O)`'s `for value in array` raises
`TypeError: iteration over a 0-d array`.  With at least two observations
nothing in `bootstrap` can raise (an all-zero outcome column gives a `nan`
CDF that is never drawn from, see `cdfInitArray`).  The state is only
mutated (at `self._boot = ...`) after everything above it succeeds. -/
def bootstrapStep (s : PState) (N : ℕ) (rngs : ℕ → ℕ → ℚ) :
    PState × Option String :=
  if s.data.length < 2 then (s, some "TypeError")
  else
    let cdf := cdfInitArray ((outcomes s.data).map fun o : ℕ => (o : ℚ))
    let NN := (outcomes s.data).sum
    ({ s with boot := some (bootMatrix cdf s.data.length NN N rngs) }, none)

theorem bumpAt_length (row : List ℕ) (i : ℕ) :
    (bumpAt row i).length = row.length := by
  simp [bumpAt]

theorem bumpAt_sum (row : List ℕ) (i : ℕ) (h : i < row.length) :
    (bumpAt row i).sum = row.sum + 1 := by
  induction row generalizing i with
  | nil => simp at h
  | cons a t ih =>
    cases i with
    | zero =>
      simp only [bumpAt, List.getD_cons_zero, List.set_cons_zero, List.sum_cons]
      omega
    | succ n =>
      have hn : n < t.length := by simpa using h
      have ht := ih n hn
      simp only [bumpAt, List.getD_cons_succ, List.set_cons_succ,
        List.sum_cons] at ht ⊢
      omega

theorem fillRow_length (idxs : List ℕ) (row : List ℕ) :
    (fillRow row idxs).length = row.length := by
  induction idxs generalizing row with
  | nil => rfl
  | cons i rest ih => simp [fillRow, ih, bumpAt_length]

theorem fillRow_sum (idxs : List ℕ) (row : List ℕ)
    (h : ∀ i ∈ idxs, i < row.length) :
    (fillRow row idxs).sum = row.sum + idxs.length := by
  induction idxs generalizing row with
  | nil => simp [fillRow]
  | cons i rest ih =>
    have hi : i < row.length := h i (by simp)
    have hrest : ∀ j ∈ rest, j < (bumpAt row i).length := by
      intro j hj
      rw [bumpAt_length]
      exact h j (by simp [hj])
    simp [fillRow, ih (bumpAt row i) hrest, bumpAt_sum row i hi]
    omega

theorem bootRow_length (cdf : List ℚ) (M NN : ℕ) (rng : ℕ → ℚ) :
    (bootRow cdf M NN rng).length = M := by
  simp [bootRow, fillRow_length]

theorem bootRow_sum (cdf : List ℚ) (M NN : ℕ) (rng : ℕ → ℚ)
    (hM : cdf.length = M) (hne : cdf ≠ []) :
    (bootRow cdf M NN rng).sum = NN := by
  rw [bootRow, fillRow_sum]
  · simp
  · intro i hi
    simp only [List.mem_map] at hi
    obtain ⟨n, _, rfl⟩ := hi
    have := draw_lt cdf (rng n) hne
    simp only [List.length_replicate]
    omega

/-! ## Claim C1 -/

/-- C1 (counterexample): for the one-observation dataset `[(1/2, 1)]` —
total observed-event count `NN = 1` — `bootstrap(1)` does not produce a
replicate matrix at all: in Python 2, `map(None, *self._data)` applied to a
single pair returns the pair's two scalars, `O` becomes a 0-d numpy array,
and iterating it in `GenericCDF.__init__` raises `TypeError`, leaving the
cached matrix in its pre-call state.  So the claim, which asserts that
after `bootstrap(N)` the replicate matrix always has `N` rows each summing
to the total event count, fails. -/
theorem c1_bootstrap_counterexample :
    (bootstrapStep ⟨[((1 : ℚ)/2, 1)], none, []⟩ 1 fun _ _ => 1/2).2 =
      some "TypeError" ∧
    (bootstrapStep ⟨[((1 : ℚ)/2, 1)], none, []⟩ 1 fun _ _ => 1/2).1.boot =
      none := by
  constructor <;> simp [bootstrapStep]

/-- C1 (amended): whenever the dataset has at least TWO observations,
`bootstrap(N)` succeeds for every replicate count `N ≥ 0` and every stream
of generated uniform values — an all-zero outcome column included, where
the `nan` CDF is simply never drawn from — and the cached replicate matrix
has exactly `N` rows, one column per observation, with every row summing
exactly to the total observed-event count `NN` (trivially `0` when there
are no events).  Datasets with fewer than two observations instead raise
`TypeError` in the column split / 0-d-array iteration and produce no
matrix. -/
theorem c1_bootstrap_row_sums (s : PState) (N : ℕ) (rngs : ℕ → ℕ → ℚ)
    (h : 2 ≤ s.data.length) :
    (bootstrapStep s N rngs).2 = none ∧
    ∃ mat, (bootstrapStep s N rngs).1.boot = some mat ∧
      mat.length = N ∧
      ∀ row ∈ mat, row.length = s.data.length ∧
        row.sum = (outcomes s.data).sum := by
  set w : List ℚ := (outcomes s.data).map fun o : ℕ => (o : ℚ) with hw
  set cdf : List ℚ := cdfInitArray w with hcdf
  have hlenw : w.length = s.data.length := by
    simp [hw, outcomes]
  have hcdflen : cdf.length = s.data.length := by
    rw [hcdf, cdfInitArray, cdfAccum_length, hlenw]
  have hcdfne : cdf ≠ [] := by
    intro hc
    have h0 : s.data.length = 0 := by rw [← hcdflen, hc]; rfl
    omega
  rw [bootstrapStep, if_neg (by omega)]
  refine ⟨rfl, bootMatrix cdf s.data.length (outcomes s.data).sum N rngs,
    rfl, ?_, ?_⟩
  · simp [bootMatrix]
  · intro row hrow
    simp only [bootMatrix, List.mem_map, List.mem_range] at hrow
    obtain ⟨i, _, rfl⟩ := hrow
    exact ⟨bootRow_length _ _ _ _,
      bootRow_sum cdf s.data.length (outcomes s.data).sum (rngs i) hcdflen hcdfne⟩

/-- C1 witness: the amended theorem applied to the two-observation dataset
`[(1/2, 1), (3/4, 0)]` with `N = 2` replicates and a constant uniform
stream. -/
theorem c1_bootstrap_row_sums_witness :
    2 ≤ (PState.mk [((1 : ℚ)/2, 1), (3/4, 0)] none []).data.length ∧
    ((bootstrapStep (PState.mk [((1 : ℚ)/2, 1), (3/4, 0)] none []) 2
        fun _ _ => 1/2).2 = none ∧
      ∃ mat, (bootstrapStep (PState.mk [((1 : ℚ)/2, 1), (3/4, 0)] none []) 2
          fun _ _ => 1/2).1.boot = some mat ∧
        mat.length = 2 ∧
        ∀ row ∈ mat,
          row.length =
            (PState.mk [((1 : ℚ)/2, 1), (3/4, 0)] none []).data.length ∧
          row.sum =
            (outcomes (PState.mk [((1 : ℚ)/2, 1), (3/4, 0)] none []).data).sum) := by
  have h : 2 ≤ (PState.mk [((1 : ℚ)/2, 1), (3/4, 0)] none []).data.length := by
    simp
  exact ⟨h, c1_bootstrap_row_sums _ 2 _ h⟩

/-! ## Claim C9 -/

/-- C9 (counterexample): constructing a `GenericCDF` from an EMPTY weight
sequence does not fail at construction time, contrary to the claim: the
normalisation loop body never runs, so no division happens and the
constructor returns an empty CDF. -/
theorem c9_empty_weights_counterexample : cdfInit [] false = some [] := by
  simp [cdfInit, cdfAccum]

/-- C9 (amended): on a plain Python weight sequence, construction from a
NONEMPTY all-zero sequence fails at construction time (the first
`sum/norm` division raises `ZeroDivisionError`), while an empty sequence
is accepted and yields an empty CDF.  On the `bootstrap` path the weights
are a numpy array, whose all-zero case yields `nan` CDF entries without
raising, so sampler construction never fails there — `bootstrap`'s own
failures are the too-few-observations `TypeError`s — and whenever
`bootstrap` does fail, the whole state, in particular the previously
cached replicate matrix, is left in its pre-call state. -/
theorem c9_invalid_distribution :
    (∀ w : List ℚ, w ≠ [] → w.sum = 0 → cdfInit w false = none) ∧
    cdfInit [] false = some [] ∧
    (∀ w : List ℚ, (cdfInitArray w).length = w.length) ∧
    (∀ (s : PState) (N : ℕ) (rngs : ℕ → ℕ → ℚ),
      (bootstrapStep s N rngs).2 ≠ none → (bootstrapStep s N rngs).1 = s) := by
  refine ⟨?_, by simp [cdfInit, cdfAccum], ?_, ?_⟩
  · intro w hne hsum
    simp [cdfInit, hsum, hne]
  · intro w
    rw [cdfInitArray, cdfAccum_length]
  · intro s N rngs h
    by_cases hd : s.data.length < 2
    · simp [bootstrapStep, hd]
    · rw [bootstrapStep, if_neg hd] at h
      simp at h

/-- C9 witness: the amended theorem applied to the concrete all-zero weight
list `[0]` and to a bootstrap call on the empty dataset (which raises at
the column split, before any mutation). -/
theorem c9_invalid_distribution_witness :
    cdfInit [(0 : ℚ)] false = none ∧
    (bootstrapStep ⟨[], none, []⟩ 0 fun _ _ => 1/2).1 = ⟨[], none, []⟩ := by
  refine ⟨c9_invalid_distribution.1 [0] (by simp) (by simp), ?_⟩
  exact c9_invalid_distribution.2.2.2 ⟨[], none, []⟩ 0 (fun _ _ => 1/2)
    (by simp [bootstrapStep])

/-! ## Claim C7 -/

/-- C7: for every generated uniform value in `(0, 1]` — hence for every
seed — a sampler built over the weights `[1, 0, 0]` draws index `0`, and a
sampler built over `[0, 0, 1]` draws index `2`: the draw walks to the
smallest index whose cumulative value is `≥` the uniform value (with the
last index as fallback). -/
theorem c7_point_mass_draws (rng : ℚ) (h0 : 0 < rng) (h1 : rng ≤ 1) :
    (cdfInit [1, 0, 0] false).map (fun cdf => draw cdf rng) = some 0 ∧
    (cdfInit [0, 0, 1] false).map (fun cdf => draw cdf rng) = some 2 := by
  have h100 : cdfInit [1, 0, 0] false = some [1, 1, 1] := by
    simp [cdfInit, cdfAccum]
  have h001 : cdfInit [0, 0, 1] false = some [0, 0, 1] := by
    simp [cdfInit, cdfAccum]
  have d1 : draw [(1 : ℚ), 1, 1] rng = 0 := by
    have hc : ¬ (List.getD [(1 : ℚ), 1, 1] 0 0 < rng ∧
        0 < [(1 : ℚ), 1, 1].length - 1) := by
      rw [List.getD_cons_zero]
      exact fun hx => absurd hx.1 (not_lt.mpr h1)
    rw [draw, drawLoop, dif_neg hc]
  have d2 : draw [(0 : ℚ), 0, 1] rng = 2 := by
    have g0 : List.getD [(0 : ℚ), 0, 1] 0 0 < rng := by
      rw [List.getD_cons_zero]; exact h0
    have g1 : List.getD [(0 : ℚ), 0, 1] 1 0 < rng := by
      simp only [List.getD_cons_succ, List.getD_cons_zero]; exact h0
    rw [draw, drawLoop, dif_pos ⟨g0, by simp⟩]
    rw [drawLoop, dif_pos ⟨g1, by simp⟩]
    rw [drawLoop, dif_neg (fun hx => by simp at hx)]
  exact ⟨by rw [h100]; simp [d1], by rw [h001]; simp [d2]⟩

/-- C7 witness: the theorem instantiated at the concrete uniform value `1/2`. -/
theorem c7_point_mass_draws_witness :
    (0 < (1/2 : ℚ) ∧ (1/2 : ℚ) ≤ 1) ∧
    ((cdfInit [1, 0, 0] false).map (fun cdf => draw cdf (1/2)) = some 0 ∧
     (cdfInit [0, 0, 1] false).map (fun cdf => draw cdf (1/2)) = some 2) := by
  have h0 : 0 < (1/2 : ℚ) := by norm_num
  have h1 : (1/2 : ℚ) ≤ 1 := by norm_num
  exact ⟨⟨h0, h1⟩, c7_point_mass_draws (1/2) h0 h1⟩

/-! ## Curve construction (`Probabilistic._calc_curve`)

For each replicate row `j` and each of its thresholds `val`, `_calc_curve`
counts the four confusion cells over all observation indices `i`, then
computes the `(X, Y)` coordinates inside a
`try: ... except ZeroDivisionError: pass` block: row 0 extends the primary
curve, later rows extend the `pairs` null population, and a zero
denominator silently drops the point.
-/

/-- Which diagram `_calc_curve` builds (`curve == 'ROC'` or `'ERROR'`). -/
inductive CurveKind
  | roc
  | error
deriving DecidableEq

/-- The confusion-count loop of `_calc_curve` at threshold `t`:
`a` counts `forecast[i] >= t and observed[i] >= 1`, `b` counts
`forecast[i] >= t and observed[i] == 0`, `c` counts
`forecast[i] < t and observed[i] >= 1`, `d` counts
`forecast[i] < t and observed[i] == 0`. -/
def confusionCounts (F : List ℚ) (O : List ℕ) (t : ℚ) : ℕ × ℕ × ℕ × ℕ :=
  ( (List.range F.length).countP fun i => decide (t ≤ F.getD i 0 ∧ 1 ≤ O.getD i 0)
  , (List.range F.length).countP fun i => decide (t ≤ F.getD i 0 ∧ O.getD i 0 = 0)
  , (List.range F.length).countP fun i => decide (F.getD i 0 < t ∧ 1 ≤ O.getD i 0)
  , (List.range F.length).countP fun i => decide (F.getD i 0 < t ∧ O.getD i 0 = 0) )

/-- One per-threshold statistics block of `_calc_curve`, its
`try: ... except ZeroDivisionError: pass` included: `none` means the point
is silently dropped.  For `'ERROR'`, `X = (a+b)/(a+b+c+d)` raises first
when there are no observations, then `Y = c/(a+c)` when there are no
positives; for `'ROC'`, `X = b/(b+d)` raises first when there are no
negatives, then `Y = a/(a+c)` when there are no positives. -/
def ratePoint (kind : CurveKind) (F : List ℚ) (O : List ℕ) (t : ℚ) :
    Option (ℚ × ℚ) :=
  let a : ℕ := (confusionCounts F O t).1
  let b : ℕ := (confusionCounts F O t).2.1
  let c : ℕ := (confusionCounts F O t).2.2.1
  let d : ℕ := (confusionCounts F O t).2.2.2
  match kind with
  | CurveKind.error =>
      if a + b + c + d = 0 then none
      else if a + c = 0 then none
      else some (((a + b : ℕ) : ℚ) / ((a + b + c + d : ℕ) : ℚ),
        ((c : ℕ) : ℚ) / ((a + c : ℕ) : ℚ))
  | CurveKind.roc =>
      if b + d = 0 then none
      else if a + c = 0 then none
      else some (((b : ℕ) : ℚ) / ((b + d : ℕ) : ℚ),
        ((a : ℕ) : ℚ) / ((a + c : ℕ) : ℚ))

/-- The fixed first curve point `(x[0], y[0])`: `(1,0)` for error diagrams,
`(1,1)` for ROC diagrams. -/
def anchorHead : CurveKind → ℚ × ℚ
  | CurveKind.error => (1, 0)
  | CurveKind.roc => (1, 1)

/-- The fixed last curve point: `(0,1)` for error diagrams, `(0,0)` for ROC
diagrams. -/
def anchorTail : CurveKind → ℚ × ℚ
  | CurveKind.error => (0, 1)
  | CurveKind.roc => (0, 0)

/-- Row 0 of `_calc_curve`: the primary curve with its two anchors; dropped
thresholds contribute nothing. -/
def primaryCurve (kind : CurveKind) (F : List ℚ) (O : List ℕ)
    (ts : List ℚ) : List (ℚ × ℚ) :=
  anchorHead kind :: (ts.filterMap (ratePoint kind F O) ++ [anchorTail kind])

/-- Rows `1..N` of `_calc_curve`: the `(X, Y)` pairs appended to `pairs`,
one `(outcome row, threshold list)` pair per bootstrap replicate. -/
def nullPopulation (kind : CurveKind) (F : List ℚ)
    (rows : List (List ℕ × List ℚ)) : List (ℚ × ℚ) :=
  (rows.map fun p => p.2.filterMap (ratePoint kind F p.1)).flatten

/-- The `threshold=None` ("exact jump") policy of `_calc_curve`: the sorted
forecast values of the observations whose (real or synthetic) outcome is
`≥ 1`. -/
def jumpThresholds (F : List ℚ) (O : List ℕ) : List ℚ :=
  List.insertionSort (· ≤ ·)
    (((F.zip O).filter fun p => decide (1 ≤ p.2)).map Prod.fst)

/-- `tmp[0]` of the `unit=True` branch of `_calc_curve`: the minimum
forecast value. -/
def minForecast (F : List ℚ) : ℚ := (List.insertionSort (· ≤ ·) F).headD 0

/-- `tmp[-1]` of the `unit=True` branch of `_calc_curve`: the maximum
forecast value. -/
def maxForecast (F : List ℚ) : ℚ := (List.insertionSort (· ≤ ·) F).getLastD 0

/-- The `type(threshold) is int, unit=True` policy of `_calc_curve`:
`dx = (U - L)/(threshold + 1)` and `[L + i*dx for i in xrange(threshold+1)]`. -/
def uniformThresholds (F : List ℚ) (n : ℕ) : List ℚ :=
  let L := minForecast F
  let U := maxForecast F
  let dx := (U - L) / ((n : ℚ) + 1)
  (List.range (n + 1)).map fun i : ℕ => L + (i : ℚ) * dx

theorem countP_range_eq_card_filter (n : ℕ) (p : ℕ → Prop) [DecidablePred p] :
    (List.range n).countP (fun i => decide (p i)) =
      ((Finset.range n).filter p).card := by
  induction n with
  | zero => simp
  | succ m ih =>
    rw [List.range_succ, List.countP_append, Finset.range_succ,
      Finset.filter_insert]
    by_cases hp : p m
    · rw [if_pos hp, Finset.card_insert_of_not_mem (by simp), ← ih]
      simp [hp]
    · rw [if_neg hp, ← ih]
      simp [hp]

/-! ## Claim C2 -/

/-- C2: the four confusion cells counted by `_calc_curve` are exactly the
numbers of observation indices with (forecast ≥ t, outcome ≥ 1),
(forecast ≥ t, outcome = 0), (forecast < t, outcome ≥ 1) and
(forecast < t, outcome = 0); and on the dataset
`{(0.9,1), (0.8,1), (0.1,0), (0.2,0)}` at threshold `0.5` they are
`(a,b,c,d) = (2,0,0,2)`, which gives the ROC point `(0, 1)`. -/
theorem c2_confusion_counts :
    (∀ (F : List ℚ) (O : List ℕ) (t : ℚ),
      confusionCounts F O t =
        (((Finset.range F.length).filter fun i =>
            t ≤ F.getD i 0 ∧ 1 ≤ O.getD i 0).card,
         ((Finset.range F.length).filter fun i =>
            t ≤ F.getD i 0 ∧ O.getD i 0 = 0).card,
         ((Finset.range F.length).filter fun i =>
            F.getD i 0 < t ∧ 1 ≤ O.getD i 0).card,
         ((Finset.range F.length).filter fun i =>
            F.getD i 0 < t ∧ O.getD i 0 = 0).card)) ∧
    confusionCounts [9/10, 8/10, 1/10, 2/10] [1, 1, 0, 0] (1/2) = (2, 0, 0, 2) ∧
    ratePoint CurveKind.roc [9/10, 8/10, 1/10, 2/10] [1, 1, 0, 0] (1/2) =
      some (0, 1) := by
  have hcc : confusionCounts [9/10, 8/10, 1/10, 2/10] [1, 1, 0, 0] ((1 : ℚ)/2) =
      (2, 0, 0, 2) := by
    norm_num [confusionCounts, List.range_succ]
  refine ⟨?_, hcc, ?_⟩
  · intro F O t
    unfold confusionCounts
    rw [countP_range_eq_card_filter, countP_range_eq_card_filter,
      countP_range_eq_card_filter, countP_range_eq_card_filter]
  · simp only [ratePoint, hcc]
    norm_num

/-! ## Claim C10 -/

/-- C10: at every threshold the four confusion cells partition the
observation set: `a + b + c + d` is the number of observations, and each
observation index falls in exactly one of the four cells. -/
theorem c10_confusion_partition (F : List ℚ) (O : List ℕ) (t : ℚ) :
    (confusionCounts F O t).1 + (confusionCounts F O t).2.1 +
      (confusionCounts F O t).2.2.1 + (confusionCounts F O t).2.2.2 =
      F.length ∧
    ∀ i, i < F.length →
      ((if t ≤ F.getD i 0 ∧ 1 ≤ O.getD i 0 then 1 else 0) +
       (if t ≤ F.getD i 0 ∧ O.getD i 0 = 0 then 1 else 0) +
       (if F.getD i 0 < t ∧ 1 ≤ O.getD i 0 then 1 else 0) +
       (if F.getD i 0 < t ∧ O.getD i 0 = 0 then 1 else 0) : ℕ) = 1 := by
  constructor
  · unfold confusionCounts
    rw [countP_range_eq_card_filter, countP_range_eq_card_filter,
      countP_range_eq_card_filter, countP_range_eq_card_filter]
    have h1 : ∀ (P Q : ℕ → Prop) (inst1 : DecidablePred P)
        (inst2 : DecidablePred Q) (s : Finset ℕ),
        (s.filter fun i => P i ∧ Q i).card +
          (s.filter fun i => P i ∧ ¬ Q i).card = (s.filter P).card := by
      intro P Q _ _ s
      rw [← Finset.filter_filter, ← Finset.filter_filter,
        Finset.filter_card_add_filter_neg_card_eq_card]
    have e2 : ((Finset.range F.length).filter fun i =>
        t ≤ F.getD i 0 ∧ O.getD i 0 = 0) =
        ((Finset.range F.length).filter fun i =>
          t ≤ F.getD i 0 ∧ ¬ 1 ≤ O.getD i 0) := by
      apply Finset.filter_congr
      intro i _
      constructor
      · exact fun hx => ⟨hx.1, by omega⟩
      · exact fun hx => ⟨hx.1, by omega⟩
    have e3 : ((Finset.range F.length).filter fun i =>
        F.getD i 0 < t ∧ 1 ≤ O.getD i 0) =
        ((Finset.range F.length).filter fun i =>
          ¬ t ≤ F.getD i 0 ∧ 1 ≤ O.getD i 0) := by
      apply Finset.filter_congr
      intro i _
      constructor
      · exact fun hx => ⟨not_le.mpr hx.1, hx.2⟩
      · exact fun hx => ⟨not_le.mp hx.1, hx.2⟩
    have e4 : ((Finset.range F.length).filter fun i =>
        F.getD i 0 < t ∧ O.getD i 0 = 0) =
        ((Finset.range F.length).filter fun i =>
          ¬ t ≤ F.getD i 0 ∧ ¬ 1 ≤ O.getD i 0) := by
      apply Finset.filter_congr
      intro i _
      constructor
      · exact fun hx => ⟨not_le.mpr hx.1, by omega⟩
      · exact fun hx => ⟨not_le.mp hx.1, by omega⟩
    have swap3 : ((Finset.range F.length).filter fun i =>
        ¬ t ≤ F.getD i 0 ∧ 1 ≤ O.getD i 0).card =
        ((Finset.range F.length).filter fun i =>
          1 ≤ O.getD i 0 ∧ ¬ t ≤ F.getD i 0).card := by
      congr 1
      apply Finset.filter_congr
      intro i _
      exact ⟨fun hx => ⟨hx.2, hx.1⟩, fun hx => ⟨hx.2, hx.1⟩⟩
    rw [e2, e3, e4]
    rw [h1 (fun i => t ≤ F.getD i 0) (fun i => 1 ≤ O.getD i 0) _ _]
    have h2 : ((Finset.range F.length).filter fun i =>
        ¬ t ≤ F.getD i 0 ∧ 1 ≤ O.getD i 0).card +
        ((Finset.range F.length).filter fun i =>
          ¬ t ≤ F.getD i 0 ∧ ¬ 1 ≤ O.getD i 0).card =
        ((Finset.range F.length).filter fun i => ¬ t ≤ F.getD i 0).card :=
      h1 (fun i => ¬ t ≤ F.getD i 0) (fun i => 1 ≤ O.getD i 0) _ _ _
    rw [Nat.add_assoc, h2,
      Finset.filter_card_add_filter_neg_card_eq_card, Finset.card_range]
  · intro i _
    rcases le_or_lt t (F.getD i 0) with hf | hf
    · by_cases ho : O.getD i 0 = 0
      · rw [if_neg fun hx => absurd hx.2 (by omega), if_pos ⟨hf, ho⟩,
          if_neg fun hx => absurd hx.1 (not_lt.mpr hf),
          if_neg fun hx => absurd hx.1 (not_lt.mpr hf)]
      · rw [if_pos ⟨hf, Nat.one_le_iff_ne_zero.mpr ho⟩,
          if_neg fun hx => absurd hx.2 ho,
          if_neg fun hx => absurd hx.1 (not_lt.mpr hf),
          if_neg fun hx => absurd hx.1 (not_lt.mpr hf)]
    · by_cases ho : O.getD i 0 = 0
      · rw [if_neg fun hx => absurd hx.1 (not_le.mpr hf),
          if_neg fun hx => absurd hx.1 (not_le.mpr hf),
          if_neg fun hx => absurd hx.2 (by omega),
          if_pos ⟨hf, ho⟩]
      · rw [if_neg fun hx => absurd hx.1 (not_le.mpr hf),
          if_neg fun hx => absurd hx.1 (not_le.mpr hf),
          if_pos ⟨hf, Nat.one_le_iff_ne_zero.mpr ho⟩,
          if_neg fun hx => absurd hx.2 ho]

/-- C10 witness: the partition theorem instantiated on the concrete dataset
`{(0.9,1), (0.8,1), (0.1,0), (0.2,0)}` at threshold `0.5`, index `0`. -/
theorem c10_confusion_partition_witness :
    ((confusionCounts [9/10, 8/10, 1/10, 2/10] [1, 1, 0, 0] (1/2)).1 +
      (confusionCounts [9/10, 8/10, 1/10, 2/10] [1, 1, 0, 0] (1/2)).2.1 +
      (confusionCounts [9/10, 8/10, 1/10, 2/10] [1, 1, 0, 0] (1/2)).2.2.1 +
      (confusionCounts [9/10, 8/10, 1/10, 2/10] [1, 1, 0, 0] (1/2)).2.2.2 =
      ([(9 : ℚ)/10, 8/10, 1/10, 2/10] : List ℚ).length) ∧
    (0 < ([(9 : ℚ)/10, 8/10, 1/10, 2/10] : List ℚ).length ∧
      ((if (1 : ℚ)/2 ≤ [(9 : ℚ)/10, 8/10, 1/10, 2/10].getD 0 0 ∧
          1 ≤ [1, 1, 0, 0].getD 0 0 then 1 else 0) +
       (if (1 : ℚ)/2 ≤ [(9 : ℚ)/10, 8/10, 1/10, 2/10].getD 0 0 ∧
          [1, 1, 0, 0].getD 0 0 = 0 then 1 else 0) +
       (if [(9 : ℚ)/10, 8/10, 1/10, 2/10].getD 0 0 < (1 : ℚ)/2 ∧
          1 ≤ [1, 1, 0, 0].getD 0 0 then 1 else 0) +
       (if [(9 : ℚ)/10, 8/10, 1/10, 2/10].getD 0 0 < (1 : ℚ)/2 ∧
          [1, 1, 0, 0].getD 0 0 = 0 then 1 else 0) : ℕ) = 1) := by
  have h := c10_confusion_partition [9/10, 8/10, 1/10, 2/10] [1, 1, 0, 0] (1/2)
  exact ⟨h.1, by norm_num, h.2 0 (by norm_num)⟩

/-! ## Claim C5

The omission behaviour itself is settled on `ratePoint`, `primaryCurve`
and `nullPopulation`.  The "whole call succeeds" part of the claim also
depends on the confidence-band stage of `_calc_curve` (lines 350–391),
whose loop `for i in xrange(len(thresh[0]))` evaluates `x[i+1]`, `y[i+1]`
in list comprehensions outside any `try:` — an `IndexError` when points
were dropped from the primary curve — and whose analytic fallback `CI`
divides by its sample-size argument.  Those are the only statements in
that stage that can raise, and whether they raise does not depend on the
real-valued quantities (`erf`, `sqrt`) appearing in the band values:
`numpy.sqrt` of a negative returns `nan` rather than raising, the order
statistic `tmp[int(siglevel*len(tmp))]` is in range exactly when `tmp` is
nonempty (since `0 ≤ siglevel < 1`), and sorting `tmp` does not change
its length.  The functions below embed exactly that raise-or-not control
flow. -/

/-- The claim's degeneracy condition at threshold `t`: some rate denominator
is zero — no negative cases for the false-alarm rate `b/(b+d)`, no positive
cases for the hit rate `a/(a+c)` or miss rate `c/(a+c)`, or (error diagram)
no observations at all for `(a+b)/(a+b+c+d)`. -/
def degenerateAt (kind : CurveKind) (F : List ℚ) (O : List ℕ) (t : ℚ) : Prop :=
  match kind with
  | CurveKind.roc =>
      (confusionCounts F O t).2.1 + (confusionCounts F O t).2.2.2 = 0 ∨
      (confusionCounts F O t).1 + (confusionCounts F O t).2.2.1 = 0
  | CurveKind.error =>
      (confusionCounts F O t).1 + (confusionCounts F O t).2.1 +
        (confusionCounts F O t).2.2.1 + (confusionCounts F O t).2.2.2 = 0 ∨
      (confusionCounts F O t).1 + (confusionCounts F O t).2.2.1 = 0

instance degenerateAt.instDecidable (kind : CurveKind) (F : List ℚ)
    (O : List ℕ) (t : ℚ) : Decidable (degenerateAt kind F O t) := by
  unfold degenerateAt
  cases kind <;> infer_instance

/-- Whether `CI(p, n, sigma)` raises: `sigma**2/2/n` divides by zero when
`n = 0`, and the final division raises when `1 + sigma**2/n = 0`; the
square root returns `nan` on negative input rather than raising. -/
def ciRaises (sigma : ℚ) (n : ℤ) : Bool :=
  decide (n = 0 ∨ (1 : ℚ) + sigma^2 / (n : ℚ) = 0)

/-- Whether one half-width computation of the band loop raises: the order
statistic `tmp[int(siglevel*len(tmp))]` is attempted first, and if its
index is out of range the `except:` block calls `CI(·, n, siglevel)`,
whose own failure propagates. -/
def halfWidthRaises (siglevel : ℚ) (n : ℤ) (tmp : List ℚ) : Bool :=
  if (⌊siglevel * (tmp.length : ℚ)⌋).toNat < tmp.length then false
  else ciRaises siglevel n

/-- Whether iteration `i` of the band loop of `_calc_curve` raises.
`x[i+1]`/`y[i+1]` are evaluated first in the neighbour-selection
comprehensions, outside any `try:`: out of range means `IndexError`.
Then the four half-widths run with sample sizes
`nx = len(forecast) - Nobs` (for `dxl`, `dxu`) and `ny = Nobs` (for
`dyl`, `dyu`), the neighbour lists being filtered from the null
population `pairs`. -/
def bandIterRaises (siglevel : ℚ) (nx ny : ℤ) (x y : List ℚ)
    (pairs : List (ℚ × ℚ)) (i : ℕ) : Bool :=
  if i + 1 < x.length ∧ i + 1 < y.length then
    let xi := x.getD (i + 1) 0
    let yi := y.getD (i + 1) 0
    halfWidthRaises siglevel nx ((pairs.filter fun p =>
      decide (p.1 ≤ xi ∧ |p.2 - yi| ≤ 1/100)).map Prod.fst) ||
    halfWidthRaises siglevel nx ((pairs.filter fun p =>
      decide (xi ≤ p.1 ∧ |p.2 - yi| ≤ 1/100)).map Prod.fst) ||
    halfWidthRaises siglevel ny ((pairs.filter fun p =>
      decide (p.2 ≤ yi ∧ |p.1 - xi| ≤ 1/100)).map Prod.snd) ||
    halfWidthRaises siglevel ny ((pairs.filter fun p =>
      decide (yi ≤ p.2 ∧ |p.1 - xi| ≤ 1/100)).map Prod.snd)
  else true

/-- Whether the band stage of `_calc_curve` raises: the loop runs
`len(thresh[0])` iterations and raises iff some iteration raises. -/
def bandLoopRaises (siglevel : ℚ) (nx ny : ℤ) (x y : List ℚ)
    (pairs : List (ℚ × ℚ)) (count : ℕ) : Bool :=
  (List.range count).any (bandIterRaises siglevel nx ny x y pairs)

/-- Whether a `_calc_curve(kind, threshold=None, ...)` call on dataset
`data` with cached replicate rows `bootRows` raises, `siglevel` being the
coverage fraction `erf(sigma/sqrt(2))`.  Thresholds follow the exact-jump
policy per row; the primary curve and null population are assembled as in
`primaryCurve`/`nullPopulation`; `Nobs = obs.sum()`. -/
def calcCurveRaises (kind : CurveKind) (data : List (ℚ × ℕ))
    (bootRows : List (List ℕ)) (siglevel : ℚ) : Bool :=
  let F := data.map Prod.fst
  let O := data.map Prod.snd
  let thresh0 := jumpThresholds F O
  let curve := primaryCurve kind F O thresh0
  let x := curve.map Prod.fst
  let y := curve.map Prod.snd
  let pairs := nullPopulation kind F
    (bootRows.map fun row => (row, jumpThresholds F row))
  let nobs : ℤ := (O.sum : ℤ)
  bandLoopRaises siglevel ((F.length : ℤ) - nobs) nobs x y pairs thresh0.length

theorem ratePoint_eq_none_iff (kind : CurveKind) (F : List ℚ) (O : List ℕ)
    (t : ℚ) : ratePoint kind F O t = none ↔ degenerateAt kind F O t := by
  cases kind <;>
    simp only [ratePoint, degenerateAt] <;>
    constructor <;>
    intro h
  · by_contra hc
    push_neg at hc
    rw [if_neg hc.1, if_neg hc.2] at h
    exact Option.some_ne_none _ h
  · rcases h with h | h
    · rw [if_pos h]
    · by_cases h2 : (confusionCounts F O t).2.1 + (confusionCounts F O t).2.2.2 = 0
      · rw [if_pos h2]
      · rw [if_neg h2, if_pos h]
  · by_contra hc
    push_neg at hc
    rw [if_neg hc.1, if_neg hc.2] at h
    exact Option.some_ne_none _ h
  · rcases h with h | h
    · rw [if_pos h]
    · by_cases h2 : (confusionCounts F O t).1 + (confusionCounts F O t).2.1 +
          (confusionCounts F O t).2.2.1 + (confusionCounts F O t).2.2.2 = 0
      · rw [if_pos h2]
      · rw [if_neg h2, if_pos h]

theorem filterMap_ratePoint_filter (kind : CurveKind) (F : List ℚ)
    (O : List ℕ) (ts : List ℚ) :
    ts.filterMap (ratePoint kind F O) =
      (ts.filter fun t => !decide (degenerateAt kind F O t)).filterMap
        (ratePoint kind F O) := by
  induction ts with
  | nil => rfl
  | cons t rest ih =>
    by_cases hd : degenerateAt kind F O t
    · have hn : ratePoint kind F O t = none :=
        (ratePoint_eq_none_iff kind F O t).mpr hd
      simp [List.filterMap_cons, List.filter_cons, hd, hn, ih]
    · have hn : ratePoint kind F O t ≠ none := fun hx =>
        hd ((ratePoint_eq_none_iff kind F O t).mp hx)
      rcases Option.ne_none_iff_exists'.mp hn with ⟨v, hv⟩
      simp [List.filterMap_cons, List.filter_cons, hd, hv, ih]

/-- C5 (counterexample): on the dataset `{(0.3, 2), (0.7, 3)}` — every
outcome positive, so the false-alarm denominator `b + d` is zero at every
threshold — the exact-jump ROC call drops both threshold points (as the
claim says), but the whole call does NOT succeed: with only the two anchors
left in the primary curve, iteration `1` of the confidence-band loop
evaluates `x[2]` on the two-element coordinate list and raises
`IndexError`. -/
theorem c5_omission_counterexample :
    ratePoint CurveKind.roc [3/10, 7/10] [2, 3] (3/10) = none ∧
    degenerateAt CurveKind.roc [3/10, 7/10] [2, 3] (3/10) ∧
    calcCurveRaises CurveKind.roc [(3/10, 2), (7/10, 3)] [] (95/100) = true := by
  have hd : degenerateAt CurveKind.roc [3/10, 7/10] [2, 3] ((3 : ℚ)/10) := by
    unfold degenerateAt
    left
    norm_num [confusionCounts, List.range_succ]
  refine ⟨(ratePoint_eq_none_iff _ _ _ _).mpr hd, hd, ?_⟩
  norm_num [calcCurveRaises, bandLoopRaises, bandIterRaises, jumpThresholds,
    primaryCurve, nullPopulation, ratePoint, confusionCounts, anchorHead,
    anchorTail, List.range_succ, List.insertionSort, List.orderedInsert]

/-- C5 (amended): a zero-denominator threshold is indeed silently omitted —
`ratePoint` returns `none` exactly at the claim's degeneracy conditions,
and both the primary curve and the null population equal what they would
be with the degenerate thresholds filtered away — but the claim's further
assertion that the whole curve call then succeeds does not hold: whenever
at least two points are dropped from the primary curve (so that the number
of row-0 thresholds exceeds the curve length minus 2), the confidence-band
stage raises an `IndexError` at `x[i+1]`. -/
theorem c5_silent_omission :
    (∀ (kind : CurveKind) (F : List ℚ) (O : List ℕ) (t : ℚ),
      ratePoint kind F O t = none ↔ degenerateAt kind F O t) ∧
    (∀ (kind : CurveKind) (F : List ℚ) (O : List ℕ) (ts : List ℚ),
      primaryCurve kind F O ts =
        primaryCurve kind F O
          (ts.filter fun t => !decide (degenerateAt kind F O t))) ∧
    (∀ (kind : CurveKind) (F : List ℚ) (rows : List (List ℕ × List ℚ)),
      nullPopulation kind F rows =
        nullPopulation kind F (rows.map fun p =>
          (p.1, p.2.filter fun t => !decide (degenerateAt kind F p.1 t)))) ∧
    (∀ (kind : CurveKind) (data : List (ℚ × ℕ)) (bootRows : List (List ℕ))
      (siglevel : ℚ),
      ((jumpThresholds (data.map Prod.fst) (data.map Prod.snd)).filterMap
          (ratePoint kind (data.map Prod.fst) (data.map Prod.snd))).length + 2 ≤
        (jumpThresholds (data.map Prod.fst) (data.map Prod.snd)).length →
      calcCurveRaises kind data bootRows siglevel = true) := by
  refine ⟨ratePoint_eq_none_iff, ?_, ?_, ?_⟩
  · intro kind F O ts
    unfold primaryCurve
    rw [← filterMap_ratePoint_filter]
  · intro kind F rows
    unfold nullPopulation
    rw [List.map_map]
    congr 1
    apply List.map_congr_left
    intro p _
    exact filterMap_ratePoint_filter kind F p.1 p.2
  · intro kind data bootRows siglevel hdrop
    unfold calcCurveRaises bandLoopRaises
    rw [List.any_eq_true]
    set F := data.map Prod.fst
    set O := data.map Prod.snd
    set thresh0 := jumpThresholds F O with ht0
    set kept := (thresh0.filterMap (ratePoint kind F O)).length with hk
    have hx : (primaryCurve kind F O thresh0).length = kept + 2 := by
      simp [primaryCurve, hk]
    refine ⟨kept + 1, List.mem_range.mpr (by omega), ?_⟩
    unfold bandIterRaises
    rw [if_neg]
    intro hc
    rw [List.length_map, hx] at hc
    omega

/-- C5 witness: the amended theorem's band-stage conclusion applied to the
all-positive two-observation dataset, where both exact-jump thresholds are
dropped (`kept = 0`, two thresholds), so the call raises. -/
theorem c5_silent_omission_witness :
    (((jumpThresholds [(1 : ℚ)/4, 3/4] [1, 1]).filterMap
        (ratePoint CurveKind.roc [(1 : ℚ)/4, 3/4] [1, 1])).length + 2 ≤
      (jumpThresholds [(1 : ℚ)/4, 3/4] [1, 1]).length) ∧
    calcCurveRaises CurveKind.roc [((1 : ℚ)/4, 1), (3/4, 1)] [] (95/100) = true := by
  have hpre : (((jumpThresholds [(1 : ℚ)/4, 3/4] [1, 1]).filterMap
      (ratePoint CurveKind.roc [(1 : ℚ)/4, 3/4] [1, 1])).length + 2 ≤
      (jumpThresholds [(1 : ℚ)/4, 3/4] [1, 1]).length) := by
    norm_num [jumpThresholds, ratePoint, confusionCounts, List.range_succ,
      List.insertionSort, List.orderedInsert]
  have happ := c5_silent_omission.2.2.2 CurveKind.roc
    [((1 : ℚ)/4, 1), (3/4, 1)] [] (95/100)
  constructor
  · exact hpre
  · apply happ
    convert hpre using 2

/-! ## Claim C8 -/

theorem headD_mem_of_ne_nil {α : Type} (l : List α) (d : α) (h : l ≠ []) :
    l.headD d ∈ l := by
  cases l with
  | nil => exact absurd rfl h
  | cons a t => simp

theorem getLastD_mem_of_ne_nil {α : Type} (l : List α) (d : α) (h : l ≠ []) :
    l.getLastD d ∈ l := by
  induction l generalizing d with
  | nil => exact absurd rfl h
  | cons a t ih =>
    rw [List.getLastD_cons]
    cases t with
    | nil => simp
    | cons b u => exact List.mem_cons_of_mem a (ih a (by simp))

theorem sorted_headD_le {l : List ℚ} (hs : l.Sorted (· ≤ ·)) {z : ℚ}
    (hz : z ∈ l) (d : ℚ) : l.headD d ≤ z := by
  cases l with
  | nil => simp at hz
  | cons a t =>
    rw [List.headD_cons]
    rcases List.mem_cons.mp hz with rfl | hz2
    · exact le_refl z
    · exact (List.sorted_cons.mp hs).1 z hz2

theorem sorted_le_getLastD {l : List ℚ} (hs : l.Sorted (· ≤ ·)) {z : ℚ}
    (hz : z ∈ l) (d : ℚ) : z ≤ l.getLastD d := by
  induction l generalizing d with
  | nil => simp at hz
  | cons a t ih =>
    rcases List.sorted_cons.mp hs with ⟨ha, ht⟩
    rw [List.getLastD_cons]
    cases t with
    | nil =>
      have hz3 : z = a := by simpa using hz
      simp [List.getLastD, hz3]
    | cons b u =>
      rcases List.mem_cons.mp hz with rfl | hz2
      · exact ha _ (getLastD_mem_of_ne_nil (b :: u) z (by simp))
      · exact ih ht hz2 a

theorem getD_map_range (m : ℕ) (f : ℕ → ℚ) (i : ℕ) (h : i < m) :
    ((List.range m).map f).getD i 0 = f i := by
  rw [List.getD_eq_getElem?_getD, List.getElem?_map, List.getElem?_range h]
  rfl

/-- C8 (counterexample): for the forecasts `[0, 1]` and threshold count
`N = 1`, the `unit=True` policy yields `[0, 1/2]`: evenly spaced, starting
at the minimum, but the LAST threshold is `1/2`, not the maximum forecast
value `1` claimed. -/
theorem c8_uniform_counterexample :
    uniformThresholds [0, 1] 1 = [0, 1/2] ∧
    maxForecast [0, 1] = 1 ∧
    (uniformThresholds [0, 1] 1).getLastD 0 ≠ maxForecast [0, 1] := by
  have hs : List.insertionSort (· ≤ ·) [(0 : ℚ), 1] = [0, 1] := by
    norm_num [List.insertionSort, List.orderedInsert]
  have hu : uniformThresholds [0, 1] 1 = [0, 1/2] := by
    norm_num [uniformThresholds, minForecast, maxForecast, hs, List.range_succ]
  have hm : maxForecast [(0 : ℚ), 1] = 1 := by
    norm_num [maxForecast, hs]
  refine ⟨hu, hm, ?_⟩
  rw [hu, hm]
  norm_num

/-- C8 (amended): for a nonempty forecast list, the `unit=True` policy with
count `N` produces `N+1` thresholds `L + i·dx` (`i = 0..N`) with constant
spacing `dx = (U−L)/(N+1)`, where `L` and `U` are the minimum and maximum
forecast values; the first threshold is the minimum, but the last threshold
is `U − dx` — one spacing short of the maximum — rather than the maximum
itself. -/
theorem c8_uniform_thresholds (F : List ℚ) (n : ℕ) (hne : F ≠ []) :
    (uniformThresholds F n).length = n + 1 ∧
    (minForecast F ∈ F ∧ ∀ z ∈ F, minForecast F ≤ z) ∧
    (maxForecast F ∈ F ∧ ∀ z ∈ F, z ≤ maxForecast F) ∧
    (∀ i, i ≤ n → (uniformThresholds F n).getD i 0 =
      minForecast F + (i : ℚ) *
        ((maxForecast F - minForecast F) / ((n : ℚ) + 1))) ∧
    (uniformThresholds F n).headD 0 = minForecast F ∧
    (uniformThresholds F n).getD n 0 =
      maxForecast F - (maxForecast F - minForecast F) / ((n : ℚ) + 1) := by
  have hsne : List.insertionSort (· ≤ ·) F ≠ [] := by
    intro hx
    exact hne (List.eq_nil_of_length_eq_zero
      (by rw [← List.length_insertionSort (· ≤ ·) F, hx]; rfl))
  have hsorted : (List.insertionSort (· ≤ ·) F).Sorted (· ≤ ·) :=
    List.sorted_insertionSort (· ≤ ·) F
  have hperm := List.perm_insertionSort (· ≤ ·) F
  have hminmem : minForecast F ∈ F :=
    hperm.subset (headD_mem_of_ne_nil _ 0 hsne)
  have hmaxmem : maxForecast F ∈ F :=
    hperm.subset (getLastD_mem_of_ne_nil _ 0 hsne)
  have hminle : ∀ z ∈ F, minForecast F ≤ z := by
    intro z hz
    exact sorted_headD_le hsorted (hperm.mem_iff.mpr hz) 0
  have hmaxge : ∀ z ∈ F, z ≤ maxForecast F := by
    intro z hz
    exact sorted_le_getLastD hsorted (hperm.mem_iff.mpr hz) 0
  have hget : ∀ i, i ≤ n → (uniformThresholds F n).getD i 0 =
      minForecast F + (i : ℚ) *
        ((maxForecast F - minForecast F) / ((n : ℚ) + 1)) := by
    intro i hi
    unfold uniformThresholds
    exact getD_map_range (n + 1) _ i (by omega)
  refine ⟨by simp [uniformThresholds], ⟨hminmem, hminle⟩, ⟨hmaxmem, hmaxge⟩,
    hget, ?_, ?_⟩
  · have hh : (uniformThresholds F n).headD 0 =
        (uniformThresholds F n).getD 0 0 := by
      cases hu : uniformThresholds F n <;> rfl
    rw [hh, hget 0 (by omega)]
    norm_num
  · have hn := hget n (le_refl n)
    rw [hn]
    have hden : ((n : ℚ) + 1) ≠ 0 := by positivity
    field_simp
    ring

/-- C8 witness: the amended theorem applied to the concrete forecasts
`[1/4, 3/4]` with threshold count `N = 1`. -/
theorem c8_uniform_thresholds_witness :
    ([(1 : ℚ)/4, 3/4] ≠ ([] : List ℚ)) ∧
    ((uniformThresholds [(1 : ℚ)/4, 3/4] 1).length = 1 + 1 ∧
      (minForecast [(1 : ℚ)/4, 3/4] ∈ [(1 : ℚ)/4, 3/4] ∧
        ∀ z ∈ [(1 : ℚ)/4, 3/4], minForecast [(1 : ℚ)/4, 3/4] ≤ z) ∧
      (maxForecast [(1 : ℚ)/4, 3/4] ∈ [(1 : ℚ)/4, 3/4] ∧
        ∀ z ∈ [(1 : ℚ)/4, 3/4], z ≤ maxForecast [(1 : ℚ)/4, 3/4]) ∧
      (∀ i, i ≤ 1 → (uniformThresholds [(1 : ℚ)/4, 3/4] 1).getD i 0 =
        minForecast [(1 : ℚ)/4, 3/4] + (i : ℚ) *
          ((maxForecast [(1 : ℚ)/4, 3/4] - minForecast [(1 : ℚ)/4, 3/4]) /
            ((1 : ℚ) + 1))) ∧
      (uniformThresholds [(1 : ℚ)/4, 3/4] 1).headD 0 =
        minForecast [(1 : ℚ)/4, 3/4] ∧
      (uniformThresholds [(1 : ℚ)/4, 3/4] 1).getD 1 0 =
        maxForecast [(1 : ℚ)/4, 3/4] -
          (maxForecast [(1 : ℚ)/4, 3/4] - minForecast [(1 : ℚ)/4, 3/4]) /
            ((1 : ℚ) + 1)) := by
  refine ⟨by simp, ?_⟩
  have h := c8_uniform_thresholds [(1 : ℚ)/4, 3/4] 1 (by simp)
  convert h using 3

/-! ## Area scoring (`Probabilistic._calc_curve_area`)

`_calc_curve_area` first sorts the `(x, y, dx, dy)` tuples into increasing
order (Python's lexicographic, stable tuple sort), then iterates
`i = 1 .. len-1`, updating the running trapezoid sum
`sum += 0.5*(X[i] - X[i-1])*(Y[i] + Y[i-1])` and appending the area (the
running sum for ROC, `X[i]` minus it for error diagrams) and the skill
score `(area[-1] - ref)/(X[i] - ref)` — `0.0` when that division raises —
to lists initialised to `[0.0]`.  The embedding keeps the sorted `X` and
reproduces the `area` and `skill` output lists; the propagated band
outputs `da`/`ds` are outside every claim and are not modelled.  The sort
compares the `(x, y)` components: the trailing band components only break
ties between points with equal `x` and `y`, which cannot change `X`, `Y`,
`area` or `skill`.
-/

/-- Python's tuple comparison on curve points, restricted to the `(x, y)`
components that determine the area and skill outputs. -/
def lexLe (p q : ℚ × ℚ) : Prop :=
  p.1 < q.1 ∨ (p.1 = q.1 ∧ p.2 ≤ q.2)

instance lexLe.instDecidableRel : DecidableRel lexLe := fun p q => by
  unfold lexLe
  infer_instance

/-- The `model` argument of `_calc_curve_area`: `None` (perfect-failure
reference), `0` (random-guess reference), or a caller-supplied sequence of
reference values. -/
inductive RefModel
  | perfectFailure
  | randomGuess
  | given (ys : List ℚ)

/-- The reference-model area `ref` at index `i`: `0.0`, or
`0.5*X[i]**2` (ROC) / `X[i] - 0.5*X[i]**2` (error), or `model[i]`. -/
def refArea (kind : CurveKind) (model : RefModel) (X : List ℚ) (i : ℕ) : ℚ :=
  match model with
  | RefModel.perfectFailure => 0
  | RefModel.randomGuess =>
      match kind with
      | CurveKind.roc => (1/2) * (X.getD i 0)^2
      | CurveKind.error => X.getD i 0 - (1/2) * (X.getD i 0)^2
  | RefModel.given ys => ys.getD i 0

/-- The value of `sum` after loop iteration `i` of `_calc_curve_area`. -/
def runningTrap (X Y : List ℚ) : ℕ → ℚ
  | 0 => 0
  | i + 1 => runningTrap X Y i +
      (1/2) * (X.getD (i + 1) 0 - X.getD i 0) * (Y.getD (i + 1) 0 + Y.getD i 0)

/-- The element of the `area` output list at index `i` (`area[0] = 0.0`). -/
def areaAt (kind : CurveKind) (X Y : List ℚ) : ℕ → ℚ
  | 0 => 0
  | i + 1 =>
      match kind with
      | CurveKind.roc => runningTrap X Y (i + 1)
      | CurveKind.error => X.getD (i + 1) 0 - runningTrap X Y (i + 1)

/-- The element of the `skill` output list at index `i` (`skill[0] = 0.0`);
the bare `except:` around the division makes a zero denominator yield
`0.0` instead of an error. -/
def skillAt (kind : CurveKind) (model : RefModel) (X Y : List ℚ) : ℕ → ℚ
  | 0 => 0
  | i + 1 =>
      let ref := refArea kind model X (i + 1)
      if X.getD (i + 1) 0 - ref = 0 then 0
      else (areaAt kind X Y (i + 1) - ref) / (X.getD (i + 1) 0 - ref)

/-- `_calc_curve_area(curve, x, y, dx, dy, model)` reduced to its
`(X, area, skill)` outputs. -/
def calcCurveArea (kind : CurveKind) (pts : List (ℚ × ℚ)) (model : RefModel) :
    List ℚ × List ℚ × List ℚ :=
  let s := List.insertionSort lexLe pts
  let X := s.map Prod.fst
  let Y := s.map Prod.snd
  (X, (List.range X.length).map (areaAt kind X Y),
    (List.range X.length).map (skillAt kind model X Y))

theorem runningTrap_eq_sum (X Y : List ℚ) (i : ℕ) :
    runningTrap X Y i = ∑ j ∈ Finset.Icc 1 i,
      (1/2) * (X.getD j 0 - X.getD (j - 1) 0) *
        (Y.getD j 0 + Y.getD (j - 1) 0) := by
  induction i with
  | zero => simp [runningTrap]
  | succ m ih =>
    rw [runningTrap, ih, Finset.sum_Icc_succ_top (by omega)]
    simp

/-! ## Claim C3 -/

/-- C3: for an input curve already sorted ascending by `x` (ties resolved
by `y`, as the source's stable tuple sort leaves them), the `area` output
of `_calc_curve_area` starts at `0` at the first point, and at each later
point `i` equals the cumulative trapezoid sum
`∑_{j=1..i} 0.5·(x[j]−x[j−1])·(y[j]+y[j−1])` for ROC curves and `x[i]`
minus that sum for error diagrams. -/
theorem c3_trapezoid_area (kind : CurveKind) (pts : List (ℚ × ℚ))
    (model : RefModel) (hs : pts.Sorted lexLe) (i : ℕ) (hi : i < pts.length) :
    (calcCurveArea kind pts model).2.1.getD i 0 =
      if i = 0 then 0
      else
        match kind with
        | CurveKind.roc => ∑ j ∈ Finset.Icc 1 i,
            (1/2) * ((pts.map Prod.fst).getD j 0 -
                (pts.map Prod.fst).getD (j - 1) 0) *
              ((pts.map Prod.snd).getD j 0 + (pts.map Prod.snd).getD (j - 1) 0)
        | CurveKind.error => (pts.map Prod.fst).getD i 0 -
            ∑ j ∈ Finset.Icc 1 i,
              (1/2) * ((pts.map Prod.fst).getD j 0 -
                  (pts.map Prod.fst).getD (j - 1) 0) *
                ((pts.map Prod.snd).getD j 0 +
                  (pts.map Prod.snd).getD (j - 1) 0) := by
  have hsort : List.insertionSort lexLe pts = pts := hs.insertionSort_eq
  simp only [calcCurveArea, hsort]
  rw [getD_map_range _ _ i (by simpa using hi)]
  cases i with
  | zero => simp [areaAt]
  | succ m =>
    cases kind with
    | roc => simp [areaAt, runningTrap_eq_sum]
    | error => simp [areaAt, runningTrap_eq_sum]

/-- C3 witness: the theorem applied to the sorted two-point ROC curve
`[(0,0), (1,1)]` at `i = 1`, where the trapezoid sum is `1/2`. -/
theorem c3_trapezoid_area_witness :
    (List.Sorted lexLe [((0 : ℚ), (0 : ℚ)), (1, 1)] ∧
      1 < ([((0 : ℚ), (0 : ℚ)), (1, 1)] : List (ℚ × ℚ)).length) ∧
    (calcCurveArea CurveKind.roc [((0 : ℚ), (0 : ℚ)), (1, 1)]
        RefModel.perfectFailure).2.1.getD 1 0 =
      if 1 = 0 then 0
      else ∑ j ∈ Finset.Icc 1 1,
        (1/2) * (([((0 : ℚ), (0 : ℚ)), (1, 1)].map Prod.fst).getD j 0 -
            ([((0 : ℚ), (0 : ℚ)), (1, 1)].map Prod.fst).getD (j - 1) 0) *
          (([((0 : ℚ), (0 : ℚ)), (1, 1)].map Prod.snd).getD j 0 +
            ([((0 : ℚ), (0 : ℚ)), (1, 1)].map Prod.snd).getD (j - 1) 0) := by
  have hs : List.Sorted lexLe [((0 : ℚ), (0 : ℚ)), (1, 1)] := by
    norm_num [List.sorted_cons, lexLe]
  exact ⟨⟨hs, by norm_num⟩,
    c3_trapezoid_area CurveKind.roc _ RefModel.perfectFailure hs 1 (by norm_num)⟩

/-! ## Claim C4 -/

/-- C4: at each later point `i` of a curve sorted ascending by `x`, the
`skill` output of `_calc_curve_area` equals
`(area[i] − ref)/(x[i] − ref)`, where `ref` is `0` under the
perfect-failure reference, `0.5·x[i]²` (ROC) or `x[i] − 0.5·x[i]²` (error)
under the random-guess reference, or the caller-supplied reference value
at `i`; and whenever `x[i]` equals `ref` (a zero denominator) the skill is
`0` and the call does not fail. -/
theorem c4_skill_score (kind : CurveKind) (pts : List (ℚ × ℚ))
    (model : RefModel) (hs : pts.Sorted lexLe) (i : ℕ) (h1 : 1 ≤ i)
    (hi : i < pts.length) :
    (calcCurveArea kind pts model).2.2.getD i 0 =
      (let x := (pts.map Prod.fst).getD i 0
       let ref : ℚ :=
         match model, kind with
         | RefModel.perfectFailure, _ => 0
         | RefModel.randomGuess, CurveKind.roc => (1/2) * x^2
         | RefModel.randomGuess, CurveKind.error => x - (1/2) * x^2
         | RefModel.given ys, _ => ys.getD i 0
       if x = ref then 0
       else ((calcCurveArea kind pts model).2.1.getD i 0 - ref) / (x - ref)) := by
  have hsort : List.insertionSort lexLe pts = pts := hs.insertionSort_eq
  obtain ⟨m, rfl⟩ : ∃ m, i = m + 1 := ⟨i - 1, by omega⟩
  simp only [calcCurveArea, hsort]
  rw [getD_map_range _ _ (m + 1) (by simpa using hi),
    getD_map_range _ _ (m + 1) (by simpa using hi)]
  show skillAt kind model (pts.map Prod.fst) (pts.map Prod.snd) (m + 1) = _
  cases model <;> cases kind <;>
    simp only [skillAt, refArea, sub_eq_zero]

/-- C4 witness: the theorem applied to the sorted ROC curve `[(0,0), (1,1)]`
with the random-guess reference at `i = 1`, where `ref = 1/2` and the skill
is `(1/2 − 1/2)/(1 − 1/2) = 0`. -/
theorem c4_skill_score_witness :
    (List.Sorted lexLe [((0 : ℚ), (0 : ℚ)), (1, 1)] ∧ 1 ≤ 1 ∧
      1 < ([((0 : ℚ), (0 : ℚ)), (1, 1)] : List (ℚ × ℚ)).length) ∧
    (calcCurveArea CurveKind.roc [((0 : ℚ), (0 : ℚ)), (1, 1)]
        RefModel.randomGuess).2.2.getD 1 0 =
      (let x := ([((0 : ℚ), (0 : ℚ)), (1, 1)].map Prod.fst).getD 1 0
       let ref : ℚ := (1/2) * x^2
       if x = ref then 0
       else ((calcCurveArea CurveKind.roc [((0 : ℚ), (0 : ℚ)), (1, 1)]
           RefModel.randomGuess).2.1.getD 1 0 - ref) / (x - ref)) := by
  have hs : List.Sorted lexLe [((0 : ℚ), (0 : ℚ)), (1, 1)] := by
    norm_num [List.sorted_cons, lexLe]
  exact ⟨⟨hs, le_refl 1, by norm_num⟩,
    c4_skill_score CurveKind.roc _ RefModel.randomGuess hs 1 (le_refl 1)
      (by norm_num)⟩

/-! ## Claim C6 (`Probabilistic.add_data`) -/

/-- `Probabilistic.add_data(forecast, observed)`: the checks run in order —
`not 0 <= forecast <= 1` raises first, then
`observed < 0 or observed != int(observed)` — and only then is
`(forecast, int(observed))` appended, the cached bootstrap matrix reset to
`None` and the cached statistics reset to `{}`.  The second component is
the raised error; on a raise the state is returned unmutated.  `int()`
truncates toward zero, but the `or` short-circuits, so the comparison with
`int(observed)` only runs for `observed ≥ 0`, where truncation and floor
agree; likewise the appended `int(observed)` is a validated non-negative
integer. -/
def addData (s : PState) (forecast observed : ℚ) : PState × Option String :=
  if ¬ (0 ≤ forecast ∧ forecast ≤ 1) then
    (s, some "ValueError: forecast")
  else if observed < 0 ∨ observed ≠ ((⌊observed⌋ : ℤ) : ℚ) then
    (s, some "ValueError: observed")
  else
    ({ data := s.data ++ [(forecast, (⌊observed⌋).toNat)],
       boot := none, stats := [] }, none)

/-- C6: `add_data` raises exactly when the forecast is outside `[0, 1]` or
the observation is negative or non-integral; when it raises, the stored
observation sequence, the cached replicate matrix and the cached
statistics are unchanged; when it succeeds, exactly the one new pair is
appended (and, as in the source, the cached matrix and statistics are
reset). -/
theorem c6_add_data (s : PState) (f o : ℚ) :
    ((addData s f o).2 ≠ none ↔
      (f < 0 ∨ 1 < f ∨ o < 0 ∨ ¬ ∃ z : ℤ, o = (z : ℚ))) ∧
    ((addData s f o).2 ≠ none → (addData s f o).1 = s) ∧
    ((addData s f o).2 = none →
      (addData s f o).1.data = s.data ++ [(f, (⌊o⌋).toNat)] ∧
      (addData s f o).1.boot = none ∧ (addData s f o).1.stats = []) := by
  have hint : (o ≠ ((⌊o⌋ : ℤ) : ℚ)) ↔ ¬ ∃ z : ℤ, o = (z : ℚ) := by
    constructor
    · rintro hne ⟨z, rfl⟩
      exact hne (by rw [Int.floor_intCast])
    · exact fun hex he => hex ⟨⌊o⌋, he⟩
  by_cases hf : 0 ≤ f ∧ f ≤ 1
  · by_cases ho : o < 0 ∨ o ≠ ((⌊o⌋ : ℤ) : ℚ)
    · rw [addData, if_neg (not_not_intro hf), if_pos ho]
      refine ⟨?_, fun _ => rfl, by simp⟩
      simp only [ne_eq, Option.some_ne_none, not_false_iff, true_iff]
      rcases ho with ho | ho
      · exact Or.inr (Or.inr (Or.inl ho))
      · exact Or.inr (Or.inr (Or.inr (hint.mp ho)))
    · have ho0 := ho
      push_neg at ho
      rw [addData, if_neg (not_not_intro hf), if_neg ho0]
      refine ⟨?_, by simp, fun _ => ⟨rfl, rfl, rfl⟩⟩
      simp only [ne_eq, not_true_eq_false, false_iff]
      push_neg
      exact ⟨hf.1, hf.2, ho.1, ⟨⌊o⌋, ho.2⟩⟩
  · rw [addData, if_pos hf]
    refine ⟨?_, fun _ => rfl, by simp⟩
    simp only [ne_eq, Option.some_ne_none, not_false_iff, true_iff]
    rcases not_and_or.mp hf with h | h
    · exact Or.inl (not_le.mp h)
    · exact Or.inr (Or.inl (not_le.mp h))

/-- C6 witness: the theorem applied to a forecast `2 ∉ [0,1]` (raises,
state unchanged) and to the valid pair `(1/2, 1)` (succeeds, one pair
appended). -/
theorem c6_add_data_witness :
    (addData ⟨[], none, []⟩ 2 0).2 ≠ none ∧
    (addData ⟨[], none, []⟩ 2 0).1 = ⟨[], none, []⟩ ∧
    (addData ⟨[], none, []⟩ (1/2) 1).1.data =
      [] ++ [((1 : ℚ)/2, (⌊(1 : ℚ)⌋).toNat)] := by
  have h1 := c6_add_data ⟨[], none, []⟩ 2 0
  have h2 := c6_add_data ⟨[], none, []⟩ (1/2) 1
  have he : (addData ⟨[], none, []⟩ 2 0).2 ≠ none :=
    h1.1.mpr (Or.inr (Or.inl (by norm_num)))
  have hn : (addData ⟨[], none, []⟩ (1/2) 1).2 = none := by
    by_contra hc
    rcases h2.1.mp hc with h | h | h | h
    · norm_num at h
    · norm_num at h
    · norm_num at h
    · exact h ⟨1, by norm_num⟩
  exact ⟨he, h1.2.1 he, (h2.2.2 hn).1⟩

end VeriPy
